import Mathlib

/-!
Shallow embedding of `upload_to_archon.py`, the single script of the
repository. The script iterates a hardcoded manifest of documents, reads
each referenced file from a sections directory, assembles a content
record (a Python dict, modelled here as an association list preserving
insertion order), and prints a five-line preview block per entry followed
by two trailing lines. File reads are modelled by an abstract file
system `String → Option String` (`none` meaning the file cannot be read
for any reason); the unguarded `read_text` call is modelled as an
`Except` over a single error type carrying the unreadable path.
-/

set_option autoImplicit false
set_option linter.unusedVariables false

namespace UploadToArchon

/-- A manifest entry: one element of the `documents` list in the script,
with fields `file`, `title` and `summary`. -/
structure Doc where
  file : String
  title : String
  summary : String
deriving Repr, DecidableEq

/-- The hardcoded `documents` manifest of the script, in source order. -/
def documents : List Doc :=
  [ { file := "01_executive_summary.md",
      title := "Part 1: Executive Summary",
      summary := "Overview of cursor-memory-bank analysis and Pydantic AI replication strategy" },
    { file := "02_van_mode_workflow.md",
      title := "Part 2: VAN Mode Workflow",
      summary := "Detailed analysis of VAN mode initialization, complexity detection, and forced transitions" },
    { file := "03_plan_creative_modes.md",
      title := "Part 3: PLAN and CREATIVE Modes",
      summary := "Analysis of planning and creative design workflows with lazy loading" },
    { file := "04_lazy_loading_implementation.md",
      title := "Part 4: Lazy Loading Deep Dive",
      summary := "Technical deep dive into hierarchical rule loading and 78% token reduction" },
    { file := "05_pydantic_ai_complete_code.md",
      title := "Part 5: Pydantic AI Complete Code",
      summary := "Full implementation code for all agents, orchestrator, and lazy loader" },
    { file := "06_implementation_guide.md",
      title := "Part 6: Implementation Guide",
      summary := "Step-by-step setup guide, testing, and deployment instructions" },
    { file := "07_comparison_conclusion.md",
      title := "Part 7: Comparison & Conclusion",
      summary := "Feature comparison, use case recommendations, and final analysis" } ]

/-- The `PROJECT_ID` constant of the script. -/
def PROJECT_ID : String := "0df6b7ed-4fef-4d1b-9b37-1e496099042b"

/-- The `SECTIONS_DIR` constant of the script. -/
def SECTIONS_DIR : String := "analysis_sections"

/-- `SECTIONS_DIR / doc["file"]` rendered as a string, as `str(filepath)`
does on a POSIX path. -/
def filePath (file : String) : String := SECTIONS_DIR ++ "/" ++ file

/-- Python `str.split("_")` on a list of characters: splits at every
underscore; always returns at least one (possibly empty) piece. -/
def splitUnderscore : List Char → List (List Char)
  | [] => [[]]
  | c :: cs =>
    if c = '_' then [] :: splitUnderscore cs
    else
      match splitUnderscore cs with
      | [] => [[c]]
      | w :: ws => (c :: w) :: ws

/-- `doc["file"].split("_")[0]` from line 63 of the script: the first
piece of the underscore-split filename. -/
def partOf (file : String) : String :=
  String.mk ((splitUnderscore file.data).headD [])

/-- The `content_json` dict literal of the script (lines 60–65), as an
association list preserving Python's dict insertion order. -/
def contentJson (doc : Doc) (content : String) (filepath : String) :
    List (String × String) :=
  [ ("markdown_content", content),
    ("summary", doc.summary),
    ("part", partOf doc.file),
    ("file_reference", filepath) ]

/-- Python `repr` of a list of strings, as `print(f"... {list(...)}")`
renders `list(content_json.keys())`. -/
def pyStrListRepr (xs : List String) : String :=
  "[" ++ String.intercalate ", " (xs.map (fun s => "\x27" ++ s ++ "\x27")) ++ "]"

/-- Python `s * n` string repetition, used for the separator `"-" * 60`. -/
def pyStrMul (s : String) (n : Nat) : String :=
  String.join (List.replicate n s)

/-- The five lines printed for one manifest entry (lines 67–71 of the
script). -/
def previewLines (doc : Doc) (content : String)
    (content_json : List (String × String)) : List String :=
  [ "Document: " ++ doc.title,
    "File: " ++ doc.file,
    "Size: " ++ toString content.length ++ " characters",
    "Content keys: " ++ pyStrListRepr (content_json.map Prod.fst),
    pyStrMul "-" 60 ]

/-- The single failure kind of the run: a manifest-referenced file could
not be read; carries the unreadable path. -/
structure FileAccessError where
  path : String
deriving Repr, DecidableEq

/-- `filepath.read_text()` over the abstract file system: `none` (the
file is missing, unreadable or undecodable) becomes the error naming the
path. -/
def readText (fs : String → Option String) (path : String) :
    Except FileAccessError String :=
  match fs path with
  | some c => Except.ok c
  | none => Except.error ⟨path⟩

/-- One iteration of the loop body (lines 55–71): read the file, build
`content_json`, produce the preview lines; a failed read aborts the
iteration before any output. -/
def processDoc (fs : String → Option String) (doc : Doc) :
    Except FileAccessError (List String) :=
  let filepath := filePath doc.file
  match readText fs filepath with
  | Except.error e => Except.error e
  | Except.ok content =>
      Except.ok (previewLines doc content (contentJson doc content filepath))

/-- The `for doc in documents` loop: output printed so far together with
the error that aborted the run, if any. -/
def runLoop (fs : String → Option String) :
    List Doc → List String × Option FileAccessError
  | [] => ([], none)
  | doc :: rest =>
    match processDoc fs doc with
    | Except.error e => ([], some e)
    | Except.ok lines =>
        let r := runLoop fs rest
        (lines ++ r.1, r.2)

/-- The trailing instructional line (line 73 of the script). -/
def uploadMsg : String :=
  "\nTo upload these to Archon, call manage_document for each with the content_json structure above."

/-- The trailing total line (line 74 of the script). -/
def totalMsg (n : Nat) : String :=
  "\nTotal documents: " ++ toString n

/-- The whole module body, parameterised by the `PROJECT_ID` constant
(assigned at line 49 but never read by the loop), the file system and
the manifest: the loop followed, on success only, by the two trailing
lines. -/
def script (pid : String) (fs : String → Option String) (docs : List Doc) :
    List String × Option FileAccessError :=
  let r := runLoop fs docs
  match r.2 with
  | some e => (r.1, some e)
  | none => (r.1 ++ [uploadMsg, totalMsg docs.length], none)

/-- The concrete run of the script: the hardcoded manifest and project id. -/
def mainRun (fs : String → Option String) : List String × Option FileAccessError :=
  script PROJECT_ID fs documents

/-- An entry is readable under a file system when its resolved path has
content. -/
def readable (fs : String → Option String) (d : Doc) : Bool :=
  (fs (filePath d.file)).isSome

/-- The preview block an entry contributes under a file system (empty
when the file is unreadable). -/
def blockOf (fs : String → Option String) (d : Doc) : List String :=
  match fs (filePath d.file) with
  | some c => previewLines d c (contentJson d c (filePath d.file))
  | none => []

/-! ### Helper lemmas -/

theorem readable_iff_some (fs : String → Option String) (d : Doc) :
    readable fs d = true ↔ ∃ c, fs (filePath d.file) = some c := by
  simp [readable, Option.isSome_iff_exists]

theorem readable_false_iff_none (fs : String → Option String) (d : Doc) :
    readable fs d = false ↔ fs (filePath d.file) = none := by
  cases h : fs (filePath d.file) <;> simp [readable, h]

theorem processDoc_of_some {fs : String → Option String} {d : Doc} {c : String}
    (h : fs (filePath d.file) = some c) :
    processDoc fs d =
      Except.ok (previewLines d c (contentJson d c (filePath d.file))) := by
  simp [processDoc, readText, h]

theorem processDoc_of_none {fs : String → Option String} {d : Doc}
    (h : fs (filePath d.file) = none) :
    processDoc fs d = Except.error ⟨filePath d.file⟩ := by
  simp [processDoc, readText, h]

theorem blockOf_of_some {fs : String → Option String} {d : Doc} {c : String}
    (h : fs (filePath d.file) = some c) :
    blockOf fs d = previewLines d c (contentJson d c (filePath d.file)) := by
  simp [blockOf, h]

theorem blockOf_of_none {fs : String → Option String} {d : Doc}
    (h : fs (filePath d.file) = none) : blockOf fs d = [] := by
  simp [blockOf, h]

theorem previewLines_length (d : Doc) (c : String)
    (cj : List (String × String)) : (previewLines d c cj).length = 5 := rfl

theorem runLoop_all_readable (fs : String → Option String) :
    ∀ docs : List Doc, (∀ d ∈ docs, readable fs d = true) →
      runLoop fs docs = (docs.flatMap (blockOf fs), none) := by
  intro docs
  induction docs with
  | nil => intro _; simp [runLoop]
  | cons doc rest ih =>
    intro h
    obtain ⟨c, hc⟩ := (readable_iff_some fs doc).1 (h doc (List.mem_cons_self ..))
    have hrest := ih (fun d hd => h d (List.mem_cons_of_mem _ hd))
    simp [runLoop, processDoc_of_some hc, hrest, blockOf_of_some hc]

theorem runLoop_first_fail (fs : String → Option String)
    (pre : List Doc) (d : Doc) (post : List Doc)
    (hpre : ∀ p ∈ pre, readable fs p = true)
    (hd : readable fs d = false) :
    runLoop fs (pre ++ d :: post) =
      (pre.flatMap (blockOf fs), some ⟨filePath d.file⟩) := by
  induction pre with
  | nil =>
    have hnone := (readable_false_iff_none fs d).1 hd
    simp [runLoop, processDoc_of_none hnone]
  | cons p pre ih =>
    obtain ⟨c, hc⟩ := (readable_iff_some fs p).1 (hpre p (List.mem_cons_self ..))
    have htail := ih (fun q hq => hpre q (List.mem_cons_of_mem _ hq))
    simp [runLoop, processDoc_of_some hc, htail, blockOf_of_some hc]

theorem script_snd (pid : String) (fs : String → Option String)
    (docs : List Doc) : (script pid fs docs).2 = (runLoop fs docs).2 := by
  unfold script
  cases h : (runLoop fs docs).2 <;> simp [h]

theorem script_all_readable (pid : String) (fs : String → Option String)
    (docs : List Doc) (h : ∀ d ∈ docs, readable fs d = true) :
    script pid fs docs =
      (docs.flatMap (blockOf fs) ++ [uploadMsg, totalMsg docs.length], none) := by
  simp [script, runLoop_all_readable fs docs h]

theorem script_first_fail (pid : String) (fs : String → Option String)
    (pre : List Doc) (d : Doc) (post : List Doc)
    (hpre : ∀ p ∈ pre, readable fs p = true)
    (hd : readable fs d = false) :
    script pid fs (pre ++ d :: post) =
      (pre.flatMap (blockOf fs), some ⟨filePath d.file⟩) := by
  simp [script, runLoop_first_fail fs pre d post hpre hd]

theorem runLoop_error_mem (fs : String → Option String) :
    ∀ (docs : List Doc) (e : FileAccessError),
      (runLoop fs docs).2 = some e →
      ∃ d ∈ docs, e.path = filePath d.file ∧ fs (filePath d.file) = none := by
  intro docs
  induction docs with
  | nil => intro e h; simp [runLoop] at h
  | cons doc rest ih =>
    intro e h
    cases hf : fs (filePath doc.file) with
    | none =>
      rw [show runLoop fs (doc :: rest) = ([], some ⟨filePath doc.file⟩) by
        simp [runLoop, processDoc_of_none hf]] at h
      obtain rfl : (⟨filePath doc.file⟩ : FileAccessError) = e := by
        simpa using h
      exact ⟨doc, List.mem_cons_self .., rfl, hf⟩
    | some c =>
      rw [show (runLoop fs (doc :: rest)).2 = (runLoop fs rest).2 by
        simp [runLoop, processDoc_of_some hf]] at h
      obtain ⟨d, hd, he, hn⟩ := ih e h
      exact ⟨d, List.mem_cons_of_mem _ hd, he, hn⟩

theorem splitUnderscore_ne_nil (cs : List Char) : splitUnderscore cs ≠ [] := by
  induction cs with
  | nil => simp [splitUnderscore]
  | cons c cs ih =>
    by_cases h : c = '_'
    · simp [splitUnderscore, h]
    · cases hs : splitUnderscore cs with
      | nil => exact absurd hs ih
      | cons w ws => simp [splitUnderscore, h, hs]

/-- The spec's description of `part`: the substring of the filename up
to, and not including, the first underscore (the whole filename when
there is none). -/
def specPart (s : String) : String :=
  String.mk (s.data.takeWhile (fun c => c != '_'))

theorem headD_splitUnderscore (cs : List Char) :
    (splitUnderscore cs).headD [] = cs.takeWhile (fun c => c != '_') := by
  induction cs with
  | nil => simp [splitUnderscore]
  | cons c cs ih =>
    by_cases h : c = '_'
    · simp [splitUnderscore, h, List.takeWhile_cons]
    · cases hs : splitUnderscore cs with
      | nil => exact absurd hs (splitUnderscore_ne_nil cs)
      | cons w ws =>
        have hw : w = cs.takeWhile (fun c => c != '_') := by
          rw [← ih, hs]; rfl
        simp [splitUnderscore, h, hs, List.takeWhile_cons, hw]

/-! ### Claim theorems -/

/-- C3: for every manifest entry, the derived `part` equals the
substring of the filename up to but not including the first underscore;
with no underscore present, `part` is the full filename; in particular
`part` of "05_pydantic_ai_complete_code.md" is "05" and `part` of
"readme.md" is "readme.md". -/
theorem part_is_leading_token :
    (∀ s : String, partOf s = specPart s) ∧
    (∀ s : String, '_' ∉ s.data → partOf s = s) ∧
    partOf "05_pydantic_ai_complete_code.md" = "05" ∧
    partOf "readme.md" = "readme.md" := by
  have hmain : ∀ s : String, partOf s = specPart s := fun s =>
    congrArg String.mk (headD_splitUnderscore s.data)
  refine ⟨hmain, ?_, by decide, by decide⟩
  intro s hs
  rw [hmain, specPart, List.takeWhile_eq_self_iff.2 ?_]
  · intro x hx
    simp only [bne_iff_ne, ne_eq]
    exact fun hx' => hs (hx' ▸ hx)

theorem part_is_leading_token_witness :
    ('_' ∉ "readme.md".data) ∧ partOf "readme.md" = "readme.md" :=
  ⟨by decide, part_is_leading_token.2.1 "readme.md" (by decide)⟩

/-- C9: a filename beginning with an underscore yields the empty string
as its `part`, both directly and inside the assembled content record. -/
theorem leading_underscore_part_empty :
    partOf "_notes.md" = "" ∧
    (contentJson ⟨"_notes.md", "Notes", "notes summary"⟩ "body"
        (filePath "_notes.md")).lookup "part" = some "" := by
  constructor <;> rfl

/-- C7: for every readable entry, the preview block is exactly the
entry's title line, filename line, character-length line, the ordered
list of the content record's field names (which is exactly
`markdown_content`, `summary`, `part`, `file_reference`, in that order)
and a separator line. -/
theorem preview_block_shape (d : Doc) (c : String) (p : String) :
    (contentJson d c p).map Prod.fst =
      ["markdown_content", "summary", "part", "file_reference"] ∧
    previewLines d c (contentJson d c p) =
      [ "Document: " ++ d.title,
        "File: " ++ d.file,
        "Size: " ++ toString c.length ++ " characters",
        "Content keys: " ++
          pyStrListRepr ["markdown_content", "summary", "part", "file_reference"],
        pyStrMul "-" 60 ] :=
  ⟨rfl, rfl⟩

/-- C8: the `PROJECT_ID` constant is never consumed: runs that differ
only in the value of the constant produce identical output on every
file system and manifest. -/
theorem project_id_noninterference :
    (∀ (pid₁ pid₂ : String) (fs : String → Option String) (docs : List Doc),
      script pid₁ fs docs = script pid₂ fs docs) ∧
    (∀ (pid : String) (fs : String → Option String),
      script pid fs documents = mainRun fs) :=
  ⟨fun _ _ _ _ => rfl, fun _ _ => rfl⟩

/-! ### Concrete fixtures used by witnesses -/

/-- A small manifest entry used in concrete runs. -/
def dA : Doc := ⟨"a_one.md", "Doc A", "first"⟩

/-- A second entry, whose file the failing fixtures leave unreadable. -/
def dB : Doc := ⟨"b_two.md", "Doc B", "second"⟩

/-- A third entry, after the failing one. -/
def dC : Doc := ⟨"c_three.md", "Doc C", "third"⟩

/-- A file system where every file reads as "hello". -/
def allHelloFs : String → Option String := fun _ => some "hello"

/-- A file system where exactly `dB`'s file is unreadable. -/
def missingBFs : String → Option String :=
  fun p => if p = "analysis_sections/b_two.md" then none else some "hello"

/-- C1: when some entry's file is unreadable, the run emits exactly the
complete preview blocks of the entries before the failing one and then
aborts with the failing path: nothing is emitted for the failing entry
or any later entry, and the trailing instructional line and total are
absent. -/
theorem failing_read_aborts_run (fs : String → Option String)
    (pre : List Doc) (d : Doc) (post : List Doc)
    (hpre : ∀ p ∈ pre, readable fs p = true)
    (hd : readable fs d = false) :
    script PROJECT_ID fs (pre ++ d :: post) =
      (pre.flatMap (blockOf fs), some ⟨filePath d.file⟩) :=
  script_first_fail PROJECT_ID fs pre d post hpre hd

theorem failing_read_aborts_run_witness :
    (∀ p ∈ [dA], readable missingBFs p = true) ∧
    readable missingBFs dB = false ∧
    script PROJECT_ID missingBFs ([dA] ++ dB :: [dC]) =
      ([dA].flatMap (blockOf missingBFs), some ⟨filePath dB.file⟩) :=
  ⟨by decide, by decide,
    failing_read_aborts_run missingBFs [dA] dB [dC] (by decide) (by decide)⟩

/-- C2: on a non-empty manifest where every file is readable, the run
emits one complete preview block per entry — so the number of blocks
equals the manifest length — followed by the trailing instructional line
and a reported total equal to the manifest length. -/
theorem all_readable_counts (fs : String → Option String) (docs : List Doc)
    (hne : docs ≠ []) (h : ∀ d ∈ docs, readable fs d = true) :
    script PROJECT_ID fs docs =
      ((docs.map (blockOf fs)).flatten ++ [uploadMsg, totalMsg docs.length],
        none) ∧
    0 < docs.length ∧
    (docs.map (blockOf fs)).length = docs.length ∧
    ∀ d ∈ docs, (blockOf fs d).length = 5 := by
  refine ⟨?_, List.length_pos.2 hne, by simp, ?_⟩
  · rw [script_all_readable PROJECT_ID fs docs h, List.flatMap_def]
  · intro d hd
    obtain ⟨c, hc⟩ := (readable_iff_some fs d).1 (h d hd)
    rw [blockOf_of_some hc]
    rfl

theorem all_readable_counts_witness :
    documents ≠ [] ∧ (∀ d ∈ documents, readable allHelloFs d = true) ∧
    (script PROJECT_ID allHelloFs documents =
      ((documents.map (blockOf allHelloFs)).flatten ++
        [uploadMsg, totalMsg documents.length], none) ∧
      0 < documents.length ∧
      (documents.map (blockOf allHelloFs)).length = documents.length ∧
      ∀ d ∈ documents, (blockOf allHelloFs d).length = 5) :=
  ⟨by decide, by decide,
    all_readable_counts allHelloFs documents (by decide) (by decide)⟩

/-- C4: every read failure surfaces as the single error kind
`FileAccessError` naming the unreadable path: `read_text` either
succeeds or fails with an error carrying exactly the requested path, and
any error the whole run produces names the resolved path of a manifest
entry whose file is unreadable. -/
theorem single_error_kind :
    (∀ (fs : String → Option String) (p : String) (e : FileAccessError),
      readText fs p = Except.error e → e.path = p ∧ fs p = none) ∧
    (∀ (fs : String → Option String) (docs : List Doc) (e : FileAccessError),
      (script PROJECT_ID fs docs).2 = some e →
      ∃ d ∈ docs, e.path = filePath d.file ∧ fs (filePath d.file) = none) := by
  constructor
  · intro fs p e h
    cases hf : fs p with
    | some c => simp [readText, hf] at h
    | none =>
      obtain rfl : (⟨p⟩ : FileAccessError) = e := by simpa [readText, hf] using h
      exact ⟨rfl, rfl⟩
  · intro fs docs e h
    rw [script_snd] at h
    exact runLoop_error_mem fs docs e h

theorem single_error_kind_witness :
    ((script PROJECT_ID missingBFs [dA, dB, dC]).2 = some ⟨filePath dB.file⟩) ∧
    (∃ d ∈ [dA, dB, dC],
      (⟨filePath dB.file⟩ : FileAccessError).path = filePath d.file ∧
      missingBFs (filePath d.file) = none) :=
  ⟨by decide,
    single_error_kind.2 missingBFs [dA, dB, dC] ⟨filePath dB.file⟩ (by decide)⟩

/-- C5: the character length reported in a readable entry's preview is
exactly the length of the text read from the file, which is stored
unchanged as the record's `markdown_content`. -/
theorem reported_size_roundtrip (fs : String → Option String) (d : Doc)
    (p : String) (c : String) (h : readText fs p = Except.ok c) :
    ∃ m, (contentJson d c p).lookup "markdown_content" = some m ∧ m = c ∧
      (previewLines d c (contentJson d c p))[2]? =
        some ("Size: " ++ toString m.length ++ " characters") :=
  ⟨c, by simp [contentJson, List.lookup], rfl, rfl⟩

theorem reported_size_roundtrip_witness :
    (readText allHelloFs (filePath dA.file) = Except.ok "hello") ∧
    (∃ m, (contentJson dA "hello" (filePath dA.file)).lookup
        "markdown_content" = some m ∧ m = "hello" ∧
      (previewLines dA "hello" (contentJson dA "hello" (filePath dA.file)))[2]? =
        some ("Size: " ++ toString m.length ++ " characters")) :=
  ⟨rfl, reported_size_roundtrip allHelloFs dA (filePath dA.file) "hello" rfl⟩

/-- C6: previews are emitted in exactly manifest order — the output of a
fully readable run (duplicate filenames and single-entry manifests
included) is the concatenation, in manifest order, of each entry's
complete preview block, with the two trailing lines last. -/
theorem previews_in_manifest_order (fs : String → Option String)
    (docs : List Doc) (h : ∀ d ∈ docs, readable fs d = true) :
    (script PROJECT_ID fs docs).1 =
      docs.flatMap (blockOf fs) ++ [uploadMsg, totalMsg docs.length] := by
  rw [script_all_readable PROJECT_ID fs docs h]

theorem previews_in_manifest_order_witness :
    (∀ d ∈ [dA, dA], readable allHelloFs d = true) ∧
    (script PROJECT_ID allHelloFs [dA, dA]).1 =
      [dA, dA].flatMap (blockOf allHelloFs) ++ [uploadMsg, totalMsg 2] :=
  ⟨by decide, previews_in_manifest_order allHelloFs [dA, dA] (by decide)⟩

/-- C10: each file is fully read before any of its preview is printed,
so a failing entry contributes zero output lines: on failure the output
is exactly the flattening of the complete five-line blocks of the
preceding entries, and the failing entry's own block is empty. -/
theorem failing_entry_no_partial_output (fs : String → Option String)
    (pre : List Doc) (d : Doc) (post : List Doc)
    (hpre : ∀ p ∈ pre, readable fs p = true)
    (hd : readable fs d = false) :
    (script PROJECT_ID fs (pre ++ d :: post)).1 =
        (pre.map (blockOf fs)).flatten ∧
    (pre.map (blockOf fs)).length = pre.length ∧
    (∀ b ∈ pre.map (blockOf fs), b.length = 5) ∧
    blockOf fs d = [] := by
  refine ⟨?_, by simp, ?_,
    blockOf_of_none ((readable_false_iff_none fs d).1 hd)⟩
  · rw [script_first_fail PROJECT_ID fs pre d post hpre hd]
    simp [List.flatMap_def]
  · intro b hb
    obtain ⟨q, hq, rfl⟩ := List.mem_map.1 hb
    obtain ⟨c, hc⟩ := (readable_iff_some fs q).1 (hpre q hq)
    rw [blockOf_of_some hc]
    rfl

theorem failing_entry_no_partial_output_witness :
    (∀ p ∈ [dA], readable missingBFs p = true) ∧
    readable missingBFs dB = false ∧
    ((script PROJECT_ID missingBFs ([dA] ++ dB :: [dC])).1 =
        ([dA].map (blockOf missingBFs)).flatten ∧
      ([dA].map (blockOf missingBFs)).length = [dA].length ∧
      (∀ b ∈ [dA].map (blockOf missingBFs), b.length = 5) ∧
      blockOf missingBFs dB = []) :=
  ⟨by decide, by decide,
    failing_entry_no_partial_output missingBFs [dA] dB [dC]
      (by decide) (by decide)⟩

end UploadToArchon
